import Mathlib

/-!
Verification of the go-redis Python client's RESP protocol engine
(`python-client/goredis/client.py` together with the wrapper modules
`strings.py`, `hashes.py`, `server.py`).

Byte streams are modelled as `List Nat` (each element one octet).  Python
text (`str`) is modelled as a list of Unicode code points (`Text`).  The
encoder `send_command` and the decoder `_read_response` are embedded as
executable Lean functions, the decoder with an explicit fuel argument so
that evaluation stays structural; the top-level wrapper supplies fuel
`s.length + 1`, which strictly exceeds the nesting depth any stream of
that length can demand (each nesting level of `_read_response` consumes a
nonempty header line of at least three bytes).
-/

/-- Python `str` values, as lists of Unicode code points. -/
abbrev Text := List Nat

/-- A Unicode scalar value: the code points a Python `str` can hold and
`str.encode` accepts (below 0x110000 and not a surrogate). -/
def validScalar (c : Nat) : Bool :=
  decide (c < 0xD800) || (decide (0xE000 ≤ c) && decide (c < 0x110000))

/-- Every code point of the text is a Unicode scalar value. -/
def validText (t : Text) : Bool :=
  t.all validScalar

/-- UTF-8 encoding of a single code point, as Python
`str.encode` emits it (the standard one- to four-byte forms). -/
def utf8EncodeCodepoint (c : Nat) : List Nat :=
  if c < 0x80 then [c]
  else if c < 0x800 then [0xC0 + c / 64, 0x80 + c % 64]
  else if c < 0x10000 then
    [0xE0 + c / 4096, 0x80 + (c / 64) % 64, 0x80 + c % 64]
  else
    [0xF0 + c / 262144, 0x80 + (c / 4096) % 64, 0x80 + (c / 64) % 64,
     0x80 + c % 64]

/-- Python `s.encode('utf-8')`: concatenated per-code-point encodings. -/
def utf8Encode (t : Text) : List Nat :=
  (t.map utf8EncodeCodepoint).flatten

/-- The byte-at-a-time core of strict UTF-8 decoding.  The first
argument is the decoder state: `none` when the next byte must start a
character, `some (acc, k, lo)` in the middle of a multi-byte character
with accumulated value `acc`, `k` continuation bytes still owed and `lo`
the smallest value the finished character may have (the overlong check).
Rejects stray continuation bytes, truncated characters, overlong forms,
surrogates and values past 0x10FFFF, exactly the inputs Python's strict
codec rejects. -/
def utf8DecodeSt : Option (Nat × Nat × Nat) → List Nat → Option Text
  | none, [] => some []
  | none, b :: rest =>
    if b < 128 then (utf8DecodeSt none rest).map (fun t => b :: t)
    else if b < 194 then none
    else if b < 224 then utf8DecodeSt (some (b - 192, 1, 128)) rest
    else if b < 240 then utf8DecodeSt (some (b - 224, 2, 2048)) rest
    else if b < 245 then utf8DecodeSt (some (b - 240, 3, 65536)) rest
    else none
  | some _, [] => none
  | some (acc, k, lo), b :: rest =>
    if b < 128 ∨ 192 ≤ b then none
    else if k = 1 then
      if acc * 64 + (b - 128) < lo ∨
         (55296 ≤ acc * 64 + (b - 128) ∧ acc * 64 + (b - 128) < 57344) ∨
         1114112 ≤ acc * 64 + (b - 128) then none
      else (utf8DecodeSt none rest).map (fun t => (acc * 64 + (b - 128)) :: t)
    else utf8DecodeSt (some (acc * 64 + (b - 128), k - 1, lo)) rest

/-- Python `bytes.decode('utf-8')` (strict): `some` of the decoded code
points, or `none` when the bytes are not well-formed UTF-8 (Python
raises `UnicodeDecodeError` there). -/
def utf8Decode (s : List Nat) : Option Text := utf8DecodeSt none s

/-- `file.readline()` on a byte stream: the bytes up to and including the
first line feed (or the whole remainder if none), paired with the rest of
the stream.  An empty first component means end of stream. -/
def readLine : List Nat → List Nat × List Nat
  | [] => ([], [])
  | b :: rest =>
    if b = 10 then ([10], rest)
    else
      let p := readLine rest
      (b :: p.1, p.2)

/-- Python `line.rstrip(b'\x5cr\x5cn')`: remove every trailing carriage
return or line feed byte. -/
def rstripCRLF : List Nat → List Nat
  | [] => []
  | b :: rest =>
    let r := rstripCRLF rest
    if r = [] ∧ (b = 13 ∨ b = 10) then [] else b :: r

/-- `file.read(n)` on a byte stream: for nonnegative `n` the first `n`
bytes (fewer at end of stream) and the remainder; a negative size reads
everything, as Python's buffered `read` does. -/
def fileRead (n : Int) (s : List Nat) : List Nat × List Nat :=
  if n < 0 then (s, []) else (s.take n.toNat, s.drop n.toNat)

/-- Value of an ASCII decimal digit byte, if it is one. -/
def digitVal (b : Nat) : Option Nat :=
  if 48 ≤ b ∧ b ≤ 57 then some (b - 48) else none

/-- Accumulating parse of a run of ASCII decimal digit bytes. -/
def parseDigitsAux : List Nat → Nat → Option Nat
  | [], acc => some acc
  | b :: rest, acc =>
    match digitVal b with
    | some d => parseDigitsAux rest (acc * 10 + d)
    | none => none

/-- Parse a nonempty run of ASCII decimal digit bytes as a natural. -/
def parseDigits : List Nat → Option Nat
  | [] => none
  | l => parseDigitsAux l 0

/-- Value of a little-endian list of ASCII digit bytes. -/
def valLE : List Nat → Nat
  | [] => 0
  | b :: rest => (b - 48) + 10 * valLE rest

/-- Python `int(payload)` on the ASCII bytes of an optionally signed
decimal literal: `some` of the value, `none` where Python raises
`ValueError`. -/
def parseInt (l : List Nat) : Option Int :=
  match l with
  | [] => none
  | b :: rest =>
    if b = 43 then (parseDigits rest).map (fun n => (n : Int))
    else if b = 45 then (parseDigits rest).map (fun n => -(n : Int))
    else (parseDigits (b :: rest)).map (fun n => (n : Int))

/-- Little-endian decimal digit bytes of `n`, with explicit fuel (the
first argument); fuel `n` always suffices. -/
def toDigitsLE : Nat → Nat → List Nat
  | 0, _ => []
  | fuel + 1, n =>
    if n = 0 then [] else (48 + n % 10) :: toDigitsLE fuel (n / 10)

/-- ASCII decimal rendering of a natural, as Python string formatting of
a nonnegative `int` produces it. -/
def natToDec (n : Nat) : List Nat :=
  if n = 0 then [48] else (toDigitsLE n n).reverse

/-- ASCII decimal rendering of a Python `int`, sign included. -/
def intToDec (n : Int) : List Nat :=
  if n < 0 then 45 :: natToDec n.natAbs else natToDec n.toNat

/-- The values `_read_response` can hand back to the caller: Python
strings, ints, `None`, and lists of such values. -/
inductive PyValue where
  | pyStr (t : Text)
  | pyInt (n : Int)
  | pyNone
  | pyList (vs : List PyValue)

/-- The exceptional outcomes of `_read_response`, one constructor per
distinct Python exception the code can raise: `EOFError("Connection
closed by server")`, the `Exception("Server Error: ...")` carrying the
server's message, `ValueError` from `int(...)`, `UnicodeDecodeError`
from `.decode('utf-8')`, and the `Exception("Unknown RESP type received:
...")` carrying the offending leading byte.  `fuelExhausted` is an
artifact of the fuelled embedding and is never produced at the fuel the
wrapper supplies. -/
inductive RErr where
  | eofError
  | serverError (msg : Text)
  | valueError
  | unicodeError
  | unknownType (pre : List Nat)
  | fuelExhausted
deriving DecidableEq

/-- Run a reader `count` times, threading the remaining stream, as the
list comprehension `[self._read_response() for _ in range(count)]`
does; the first exception aborts the whole comprehension. -/
def readManyF (f : List Nat → Except RErr (PyValue × List Nat)) :
    Nat → List Nat → Except RErr (List PyValue × List Nat)
  | 0, s => .ok ([], s)
  | n + 1, s =>
    match f s with
    | .error e => .error e
    | .ok (v, s1) =>
      match readManyF f n s1 with
      | .error e => .error e
      | .ok (vs, s2) => .ok (v :: vs, s2)

/-- `GoRedisClient._read_response`, fuelled: read one line, branch on the
leading byte exactly as the Python code does, and return the produced
value together with the unconsumed remainder of the stream. -/
def readResponseF : Nat → List Nat → Except RErr (PyValue × List Nat)
  | 0, _ => .error .fuelExhausted
  | fuel + 1, s =>
    let p := readLine s
    let line0 := p.1
    let rest := p.2
    if line0 = [] then .error .eofError
    else
      let line := rstripCRLF line0
      let pre := line.take 1
      let payload := line.drop 1
      if pre = [43] then
        match utf8Decode payload with
        | some t => .ok (.pyStr t, rest)
        | none => .error .unicodeError
      else if pre = [45] then
        match utf8Decode payload with
        | some t => .error (.serverError t)
        | none => .error .unicodeError
      else if pre = [58] then
        match parseInt payload with
        | some n => .ok (.pyInt n, rest)
        | none => .error .valueError
      else if pre = [36] then
        match parseInt payload with
        | none => .error .valueError
        | some len =>
          if len = -1 then .ok (.pyNone, rest)
          else
            let q := fileRead len rest
            let r := fileRead 2 q.2
            match utf8Decode q.1 with
            | some t => .ok (.pyStr t, r.2)
            | none => .error .unicodeError
      else if pre = [42] then
        match parseInt payload with
        | none => .error .valueError
        | some cnt =>
          if cnt = -1 then .ok (.pyNone, rest)
          else
            match readManyF (readResponseF fuel) cnt.toNat rest with
            | .error e => .error e
            | .ok (vs, r) => .ok (.pyList vs, r)
      else .error (.unknownType pre)

/-- `_read_response` on a byte stream: the fuelled reader at fuel
`s.length + 1`, which every stream of that length stays below. -/
def readResponse (s : List Nat) : Except RErr (PyValue × List Nat) :=
  readResponseF (s.length + 1) s

/-- Issuing `n` sequential reads on one connection: each read decodes one
response frame off the front of the stream. -/
def readResponses (n : Nat) (s : List Nat) :
    Except RErr (List PyValue × List Nat) :=
  readManyF readResponse n s

/-- The bytes `send_command` emits for one argument whose encoded bytes
are `b`: a bulk header with the byte length, the raw bytes, and the
terminator (lines 41-42 of client.py). -/
def encodeBulk (b : List Nat) : List Nat :=
  [36] ++ natToDec b.length ++ [13, 10] ++ b ++ [13, 10]

/-- `GoRedisClient.send_command`'s request encoding over already-encoded
byte-string arguments: the array header with the argument count, then
each argument as a bulk string. -/
def encodeRequest (args : List (List Nat)) : List Nat :=
  [42] ++ natToDec args.length ++ [13, 10] ++ (args.map encodeBulk).flatten

/-- `send_command` over Python string arguments: each argument is
UTF-8-encoded (`str(arg).encode('utf-8')`) and framed with its byte
length. -/
def sendCommandEncode (args : List Text) : List Nat :=
  encodeRequest (args.map utf8Encode)

/-- One well-formed, value-returning RESP response frame: simple string,
integer, bulk string (nil or with text payload), array (nil or with
element frames).  Text payloads are stored as code points; the wire form
is their UTF-8 encoding. -/
inductive Frame where
  | simple (t : Text)
  | intg (n : Int)
  | bulkNil
  | bulk (t : Text)
  | arrNil
  | arr (fs : List Frame)

mutual

/-- Wire encoding of one frame, per the RESP grammar the decoder reads. -/
def frameEncode : Frame → List Nat
  | .simple t => [43] ++ utf8Encode t ++ [13, 10]
  | .intg n => [58] ++ intToDec n ++ [13, 10]
  | .bulkNil => [36, 45, 49, 13, 10]
  | .bulk t => encodeBulk (utf8Encode t)
  | .arrNil => [42, 45, 49, 13, 10]
  | .arr fs => [42] ++ natToDec fs.length ++ [13, 10] ++ frameEncodeList fs

/-- Concatenated wire encodings of a list of frames. -/
def frameEncodeList : List Frame → List Nat
  | [] => []
  | f :: fs => frameEncode f ++ frameEncodeList fs

end

mutual

/-- Well-formedness of a frame: text payloads are valid Unicode, and a
simple-string payload contains no carriage return or line feed byte (its
wire line would otherwise be split or stripped differently). -/
def frameOK : Frame → Bool
  | .simple t =>
    validText t && (utf8Encode t).all (fun b => !(b == 10) && !(b == 13))
  | .intg _ => true
  | .bulkNil => true
  | .bulk t => validText t
  | .arrNil => true
  | .arr fs => frameOKList fs

/-- Well-formedness of every frame in a list. -/
def frameOKList : List Frame → Bool
  | [] => true
  | f :: fs => frameOK f && frameOKList fs

end

mutual

/-- The Python value `_read_response` hands back for one frame. -/
def interp : Frame → PyValue
  | .simple t => .pyStr t
  | .intg n => .pyInt n
  | .bulkNil => .pyNone
  | .bulk t => .pyStr t
  | .arrNil => .pyNone
  | .arr fs => .pyList (interpList fs)

/-- The Python values for a list of frames, in order. -/
def interpList : List Frame → List PyValue
  | [] => []
  | f :: fs => interp f :: interpList fs

end

mutual

/-- Nesting depth of a frame: the recursion depth `_read_response`
needs to decode it. -/
def frameDepth : Frame → Nat
  | .arr fs => frameDepthList fs + 1
  | _ => 1

/-- Maximum nesting depth over a list of frames. -/
def frameDepthList : List Frame → Nat
  | [] => 0
  | f :: fs => max (frameDepth f) (frameDepthList fs)

end

/-- `k, v` pairs of a Python keyword mapping flattened in iteration
order, as the `for k, v in mapping.items(): args.extend([k, v])` loops
of `MSet` and `HMSet` build them. -/
def flattenPairs : List (Text × Text) → List Text
  | [] => []
  | (k, v) :: rest => k :: v :: flattenPairs rest

/-- The argument sequence `MSet(**mapping)` passes to `send_command`:
the literal command name `"MSET"` then the flattened pairs
(strings.py lines 31-36). -/
def msetArgs (mapping : List (Text × Text)) : List Text :=
  [77, 83, 69, 84] :: flattenPairs mapping

/-- The argument sequence `HMSet(key, **mapping)` passes to
`send_command`: the literal command name `"HMSET"`, the hash key, then
the flattened pairs (hashes.py lines 42-49). -/
def hmsetArgs (key : Text) (mapping : List (Text × Text)) : List Text :=
  [72, 77, 83, 69, 84] :: key :: flattenPairs mapping

/-- The connection-level state of the module: a source of fresh socket
handles, the set of sockets currently open, and the module-global
`_global_client` of client.py (`None` or the socket of the current
`GoRedisClient`). -/
structure World where
  nextSock : Nat
  openSocks : List Nat
  globalClient : Option Nat
deriving DecidableEq

/-- The one failure of the global-client layer:
`RuntimeError("Client not connected. Call Connect() first.")`. -/
inductive ClientError where
  | notConnected
deriving DecidableEq

/-- `server.Connect`: construct a fresh `GoRedisClient` (opening a new
socket) and overwrite `_global_client` with it; the previous client, if
any, is not closed (server.py lines 4-8). -/
def Connect (w : World) : World :=
  { nextSock := w.nextSock + 1,
    openSocks := w.nextSock :: w.openSocks,
    globalClient := some w.nextSock }

/-- `client.get_client`: the current global client, or a
not-connected `RuntimeError` when `_global_client` is `None`
(client.py lines 88-97). -/
def get_client (w : World) : Except ClientError Nat :=
  match w.globalClient with
  | none => .error .notConnected
  | some c => .ok c

/-- `server.Close`: close the current client's socket and clear
`_global_client`; raises not-connected when there is no client
(server.py lines 10-14). -/
def Close (w : World) : Except ClientError World :=
  match w.globalClient with
  | none => .error .notConnected
  | some c =>
    .ok { w with openSocks := w.openSocks.erase c, globalClient := none }

/-! ### Decimal rendering and parsing round-trip -/

theorem parseDigitsAux_all (l : List Nat) (acc : Nat)
    (h : ∀ b ∈ l, 48 ≤ b ∧ b ≤ 57) :
    parseDigitsAux l acc =
      some (l.foldl (fun a b => a * 10 + (b - 48)) acc) := by
  induction l generalizing acc with
  | nil => rfl
  | cons b rest ih =>
    have hb := h b (by simp)
    have hd : digitVal b = some (b - 48) := by
      simp [digitVal, hb.1, hb.2]
    simp only [parseDigitsAux, hd, List.foldl_cons]
    exact ih _ (fun x hx => h x (by simp [hx]))

theorem foldl_reverse_valLE (l : List Nat) (acc : Nat) :
    l.reverse.foldl (fun a b => a * 10 + (b - 48)) acc =
      acc * 10 ^ l.length + valLE l := by
  induction l generalizing acc with
  | nil => simp [valLE]
  | cons b rest ih =>
    simp only [List.reverse_cons, List.foldl_append, List.foldl_cons,
      List.foldl_nil, ih, valLE, List.length_cons, pow_succ]
    ring

theorem toDigitsLE_digits (fuel n : Nat) :
    ∀ b ∈ toDigitsLE fuel n, 48 ≤ b ∧ b ≤ 57 := by
  induction fuel generalizing n with
  | zero => simp [toDigitsLE]
  | succ fuel ih =>
    intro b hb
    by_cases h0 : n = 0
    · simp [toDigitsLE, h0] at hb
    · simp only [toDigitsLE, if_neg h0, List.mem_cons] at hb
      rcases hb with hb | hb
      · subst hb; omega
      · exact ih _ b hb

theorem toDigitsLE_val (fuel n : Nat) (h : n ≤ fuel) :
    valLE (toDigitsLE fuel n) = n := by
  induction fuel generalizing n with
  | zero => simp [toDigitsLE, valLE]; omega
  | succ fuel ih =>
    by_cases h0 : n = 0
    · simp [toDigitsLE, h0, valLE]
    · have hlt : n / 10 ≤ fuel := by
        have := Nat.div_lt_self (Nat.pos_of_ne_zero h0) (by norm_num : 1 < 10)
        omega
      simp only [toDigitsLE, if_neg h0, valLE, ih _ hlt]
      omega

theorem natToDec_digits (n : Nat) : ∀ b ∈ natToDec n, 48 ≤ b ∧ b ≤ 57 := by
  intro b hb
  by_cases h0 : n = 0
  · simp [natToDec, h0] at hb; omega
  · simp only [natToDec, if_neg h0, List.mem_reverse] at hb
    exact toDigitsLE_digits n n b hb

theorem natToDec_ne_nil (n : Nat) : natToDec n ≠ [] := by
  by_cases h0 : n = 0
  · simp [natToDec, h0]
  · simp only [natToDec, if_neg h0, ne_eq, List.reverse_eq_nil_iff]
    cases hfn : toDigitsLE n n with
    | nil =>
      exfalso
      have := toDigitsLE_val n n le_rfl
      rw [hfn] at this
      simp [valLE] at this
      exact h0 this.symm
    | cons a l => simp

theorem parseDigits_natToDec (n : Nat) : parseDigits (natToDec n) = some n := by
  have hne := natToDec_ne_nil n
  have hdig := natToDec_digits n
  cases hl : natToDec n with
  | nil => exact absurd hl hne
  | cons b rest =>
    rw [← hl]
    have hpd : parseDigits (natToDec n) = parseDigitsAux (natToDec n) 0 := by
      rw [hl]; rfl
    rw [hpd, parseDigitsAux_all _ _ hdig]
    by_cases h0 : n = 0
    · simp [natToDec, h0]
    · simp only [natToDec, if_neg h0, foldl_reverse_valLE,
        toDigitsLE_val n n le_rfl]
      simp

theorem parseInt_natToDec (n : Nat) :
    parseInt (natToDec n) = some (n : Int) := by
  have hne := natToDec_ne_nil n
  have hdig := natToDec_digits n
  cases hl : natToDec n with
  | nil => exact absurd hl hne
  | cons b rest =>
    have hb : 48 ≤ b ∧ b ≤ 57 := hdig b (by rw [hl]; simp)
    have h43 : ¬(b = 43) := by omega
    have h45 : ¬(b = 45) := by omega
    have := parseDigits_natToDec n
    rw [hl] at this
    simp [parseInt, h43, h45, this]

theorem parseInt_intToDec (n : Int) : parseInt (intToDec n) = some n := by
  by_cases hneg : n < 0
  · have h1 := parseDigits_natToDec n.natAbs
    simp only [intToDec, if_pos hneg]
    have h2 : parseInt (45 :: natToDec n.natAbs) =
        (parseDigits (natToDec n.natAbs)).map (fun m => -(m : Int)) := by
      simp [parseInt]
    rw [h2, h1]
    simp only [Option.bind_eq_bind, Option.some_bind, Option.pure_def,
      Option.map_some', Option.some.injEq]
    omega
  · simp only [intToDec, if_neg hneg]
    rw [parseInt_natToDec]
    congr 1
    omega

theorem natToDec_no_crlf (n : Nat) :
    ∀ b ∈ natToDec n, b ≠ 13 ∧ b ≠ 10 := by
  intro b hb
  have := natToDec_digits n b hb
  omega

/-! ### Line reading and stripping -/

theorem readLine_cons_ne (b : Nat) (s : List Nat) (h : ¬(b = 10)) :
    readLine (b :: s) = (b :: (readLine s).1, (readLine s).2) := by
  simp [readLine, h]

theorem readLine_append (l r : List Nat) (h : ∀ b ∈ l, ¬(b = 10)) :
    readLine (l ++ 13 :: 10 :: r) = (l ++ [13, 10], r) := by
  induction l with
  | nil =>
    simp only [List.nil_append]
    rw [readLine_cons_ne 13 _ (by omega)]
    simp [readLine]
  | cons b rest ih =>
    simp only [List.cons_append]
    rw [readLine_cons_ne b _ (h b (by simp))]
    rw [ih (fun x hx => h x (by simp [hx]))]

theorem rstripCRLF_cons_ne (b : Nat) (s : List Nat)
    (h : ¬(b = 13 ∨ b = 10)) :
    rstripCRLF (b :: s) = b :: rstripCRLF s := by
  simp only [rstripCRLF]
  rw [if_neg]
  intro hc
  exact h hc.2

theorem rstripCRLF_append (l : List Nat)
    (h : ∀ b ∈ l, b ≠ 13 ∧ b ≠ 10) :
    rstripCRLF (l ++ [13, 10]) = l := by
  induction l with
  | nil =>
    simp [rstripCRLF]
  | cons b rest ih =>
    simp only [List.cons_append]
    rw [rstripCRLF_cons_ne b _ (by have := h b (by simp); omega)]
    rw [ih (fun x hx => h x (by simp [hx]))]

/-! ### UTF-8 round-trip -/

theorem utf8Decode_cons (c : Nat) (hc : validScalar c = true) (rest : List Nat) :
    utf8Decode (utf8EncodeCodepoint c ++ rest) =
      (utf8Decode rest).map (fun t => c :: t) := by
  have hc' : c < 55296 ∨ (57344 ≤ c ∧ c < 1114112) := by
    simp only [validScalar, Bool.or_eq_true, Bool.and_eq_true,
      decide_eq_true_eq] at hc
    exact hc
  unfold utf8Decode
  by_cases h1 : c < 128
  · have e1 : utf8EncodeCodepoint c = [c] := by
      rw [utf8EncodeCodepoint, if_pos h1]
    rw [e1]
    simp only [List.cons_append, List.nil_append]
    rw [utf8DecodeSt, if_pos h1]
  · by_cases h2 : c < 2048
    · have e1 : utf8EncodeCodepoint c = [192 + c / 64, 128 + c % 64] := by
        rw [utf8EncodeCodepoint, if_neg h1, if_pos h2]
      rw [e1]
      simp only [List.cons_append, List.nil_append]
      rw [utf8DecodeSt]
      rw [if_neg (by omega), if_neg (by omega), if_pos (by omega)]
      rw [utf8DecodeSt]
      rw [if_neg (by omega), if_pos rfl, if_neg (by omega)]
      have hv : (192 + c / 64 - 192) * 64 + (128 + c % 64 - 128) = c := by
        omega
      simp only [hv]
    · by_cases h3 : c < 65536
      · have e1 : utf8EncodeCodepoint c =
            [224 + c / 4096, 128 + c / 64 % 64, 128 + c % 64] := by
          rw [utf8EncodeCodepoint, if_neg h1, if_neg h2, if_pos h3]
        rw [e1]
        simp only [List.cons_append, List.nil_append]
        rw [utf8DecodeSt]
        rw [if_neg (by omega), if_neg (by omega), if_neg (by omega),
          if_pos (by omega)]
        rw [utf8DecodeSt]
        rw [if_neg (by omega), if_neg (by omega)]
        rw [utf8DecodeSt]
        rw [if_neg (by omega), if_pos rfl, if_neg (by omega)]
        have hv : ((224 + c / 4096 - 224) * 64 + (128 + c / 64 % 64 - 128)) *
            64 + (128 + c % 64 - 128) = c := by
          omega
        simp only [hv]
      · have h4 : c < 1114112 := by omega
        have e1 : utf8EncodeCodepoint c =
            [240 + c / 262144, 128 + c / 4096 % 64, 128 + c / 64 % 64,
             128 + c % 64] := by
          rw [utf8EncodeCodepoint, if_neg h1, if_neg h2, if_neg h3]
        rw [e1]
        simp only [List.cons_append, List.nil_append]
        rw [utf8DecodeSt]
        rw [if_neg (by omega), if_neg (by omega), if_neg (by omega),
          if_neg (by omega), if_pos (by omega)]
        rw [utf8DecodeSt]
        rw [if_neg (by omega), if_neg (by omega)]
        rw [utf8DecodeSt]
        rw [if_neg (by omega), if_neg (by omega)]
        rw [utf8DecodeSt]
        rw [if_neg (by omega), if_pos rfl, if_neg (by omega)]
        have hv : (((240 + c / 262144 - 240) * 64 +
            (128 + c / 4096 % 64 - 128)) * 64 +
            (128 + c / 64 % 64 - 128)) * 64 + (128 + c % 64 - 128) = c := by
          omega
        simp only [hv]

theorem utf8Decode_encode (t : Text) (h : validText t = true) :
    utf8Decode (utf8Encode t) = some t := by
  induction t with
  | nil => rfl
  | cons c rest ih =>
    simp only [validText, List.all_cons, Bool.and_eq_true] at h
    have hrest : utf8Decode (utf8Encode rest) = some rest := ih h.2
    have he : utf8Encode (c :: rest) = utf8EncodeCodepoint c ++ utf8Encode rest := by
      simp [utf8Encode]
    rw [he, utf8Decode_cons c h.1 (utf8Encode rest), hrest]
    rfl

/-! ### Symbolic execution of one `_read_response` branch -/

theorem take_one_cons (x : Nat) (l : List Nat) : (x :: l).take 1 = [x] := rfl

theorem drop_one_cons (x : Nat) (l : List Nat) : (x :: l).drop 1 = l := rfl

theorem drop_two_cons (x y : Nat) (l : List Nat) :
    (x :: y :: l).drop 2 = l := rfl

theorem readF_simpleFrame (fuel : Nat) (p r : List Nat)
    (h : ∀ b ∈ p, b ≠ 13 ∧ b ≠ 10) :
    readResponseF (fuel + 1) (43 :: (p ++ 13 :: 10 :: r)) =
      match utf8Decode p with
      | some t => .ok (.pyStr t, r)
      | none => .error .unicodeError := by
  have hl : readLine (43 :: (p ++ 13 :: 10 :: r)) =
      (43 :: (p ++ [13, 10]), r) := by
    rw [readLine_cons_ne 43 _ (by omega),
      readLine_append p r (fun b hb => (h b hb).2)]
  have hs : rstripCRLF (43 :: (p ++ [13, 10])) = 43 :: p := by
    rw [rstripCRLF_cons_ne 43 _ (by omega), rstripCRLF_append p h]
  rw [readResponseF, hl]
  dsimp only
  rw [if_neg (by simp), hs, take_one_cons, drop_one_cons, if_pos rfl]

theorem readF_errorFrame (fuel : Nat) (p r : List Nat)
    (h : ∀ b ∈ p, b ≠ 13 ∧ b ≠ 10) :
    readResponseF (fuel + 1) (45 :: (p ++ 13 :: 10 :: r)) =
      match utf8Decode p with
      | some t => .error (.serverError t)
      | none => .error .unicodeError := by
  have hl : readLine (45 :: (p ++ 13 :: 10 :: r)) =
      (45 :: (p ++ [13, 10]), r) := by
    rw [readLine_cons_ne 45 _ (by omega),
      readLine_append p r (fun b hb => (h b hb).2)]
  have hs : rstripCRLF (45 :: (p ++ [13, 10])) = 45 :: p := by
    rw [rstripCRLF_cons_ne 45 _ (by omega), rstripCRLF_append p h]
  rw [readResponseF, hl]
  dsimp only
  rw [if_neg (by simp), hs, take_one_cons, drop_one_cons,
    if_neg (by decide), if_pos rfl]

theorem readF_intFrame (fuel : Nat) (p r : List Nat)
    (h : ∀ b ∈ p, b ≠ 13 ∧ b ≠ 10) :
    readResponseF (fuel + 1) (58 :: (p ++ 13 :: 10 :: r)) =
      match parseInt p with
      | some n => .ok (.pyInt n, r)
      | none => .error .valueError := by
  have hl : readLine (58 :: (p ++ 13 :: 10 :: r)) =
      (58 :: (p ++ [13, 10]), r) := by
    rw [readLine_cons_ne 58 _ (by omega),
      readLine_append p r (fun b hb => (h b hb).2)]
  have hs : rstripCRLF (58 :: (p ++ [13, 10])) = 58 :: p := by
    rw [rstripCRLF_cons_ne 58 _ (by omega), rstripCRLF_append p h]
  rw [readResponseF, hl]
  dsimp only
  rw [if_neg (by simp), hs, take_one_cons, drop_one_cons,
    if_neg (by decide), if_neg (by decide), if_pos rfl]

theorem readF_bulkFrame (fuel : Nat) (b r : List Nat) :
    readResponseF (fuel + 1)
        (36 :: (natToDec b.length ++ 13 :: 10 :: (b ++ 13 :: 10 :: r))) =
      match utf8Decode b with
      | some t => .ok (.pyStr t, r)
      | none => .error .unicodeError := by
  have hd := natToDec_no_crlf b.length
  have hl : readLine (36 :: (natToDec b.length ++ 13 :: 10 ::
      (b ++ 13 :: 10 :: r))) =
      (36 :: (natToDec b.length ++ [13, 10]), b ++ 13 :: 10 :: r) := by
    rw [readLine_cons_ne 36 _ (by omega),
      readLine_append _ _ (fun x hx => (hd x hx).2)]
  have hs : rstripCRLF (36 :: (natToDec b.length ++ [13, 10])) =
      36 :: natToDec b.length := by
    rw [rstripCRLF_cons_ne 36 _ (by omega), rstripCRLF_append _ hd]
  rw [readResponseF, hl]
  dsimp only
  rw [if_neg (by simp), hs, take_one_cons, drop_one_cons,
    if_neg (by decide), if_neg (by decide), if_neg (by decide), if_pos rfl,
    parseInt_natToDec]
  dsimp only
  rw [if_neg (by omega)]
  have hfr : fileRead (b.length : Int) (b ++ 13 :: 10 :: r) =
      (b, 13 :: 10 :: r) := by
    rw [fileRead, if_neg (by omega)]
    have ht : ((b.length : Int)).toNat = b.length := by omega
    rw [ht, List.take_left, List.drop_left]
  have hfr2 : fileRead 2 (13 :: 10 :: r) = ([13, 10], r) := by
    rw [fileRead, if_neg (by omega)]
    rfl
  rw [hfr]
  dsimp only
  rw [hfr2]

theorem readF_bulkNilFrame (fuel : Nat) (r : List Nat) :
    readResponseF (fuel + 1) (36 :: 45 :: 49 :: 13 :: 10 :: r) =
      .ok (.pyNone, r) := by
  have hl : readLine (36 :: 45 :: 49 :: 13 :: 10 :: r) =
      ([36, 45, 49, 13, 10], r) := by
    simp [readLine]
  rw [readResponseF, hl]
  dsimp only
  rw [if_neg (by simp),
    show rstripCRLF [36, 45, 49, 13, 10] = [36, 45, 49] from by decide,
    take_one_cons, drop_one_cons, if_neg (by decide), if_neg (by decide),
    if_neg (by decide), if_pos rfl,
    show parseInt [45, 49] = some (-1) from by decide]
  dsimp only
  rw [if_pos rfl]

theorem readF_arrNilFrame (fuel : Nat) (r : List Nat) :
    readResponseF (fuel + 1) (42 :: 45 :: 49 :: 13 :: 10 :: r) =
      .ok (.pyNone, r) := by
  have hl : readLine (42 :: 45 :: 49 :: 13 :: 10 :: r) =
      ([42, 45, 49, 13, 10], r) := by
    simp [readLine]
  rw [readResponseF, hl]
  dsimp only
  rw [if_neg (by simp),
    show rstripCRLF [42, 45, 49, 13, 10] = [42, 45, 49] from by decide,
    take_one_cons, drop_one_cons, if_neg (by decide), if_neg (by decide),
    if_neg (by decide), if_neg (by decide), if_pos rfl,
    show parseInt [45, 49] = some (-1) from by decide]
  dsimp only
  rw [if_pos rfl]

theorem readF_arrFrame (fuel n : Nat) (blob : List Nat) :
    readResponseF (fuel + 1) (42 :: (natToDec n ++ 13 :: 10 :: blob)) =
      match readManyF (readResponseF fuel) n blob with
      | .error e => .error e
      | .ok (vs, rr) => .ok (.pyList vs, rr) := by
  have hd := natToDec_no_crlf n
  have hl : readLine (42 :: (natToDec n ++ 13 :: 10 :: blob)) =
      (42 :: (natToDec n ++ [13, 10]), blob) := by
    rw [readLine_cons_ne 42 _ (by omega),
      readLine_append _ _ (fun x hx => (hd x hx).2)]
  have hs : rstripCRLF (42 :: (natToDec n ++ [13, 10])) =
      42 :: natToDec n := by
    rw [rstripCRLF_cons_ne 42 _ (by omega), rstripCRLF_append _ hd]
  rw [readResponseF, hl]
  dsimp only
  rw [if_neg (by simp), hs, take_one_cons, drop_one_cons,
    if_neg (by decide), if_neg (by decide), if_neg (by decide),
    if_neg (by decide), if_pos rfl, parseInt_natToDec]
  dsimp only
  rw [if_neg (by omega)]
  have ht : ((n : Int)).toNat = n := by omega
  rw [ht]

theorem readF_unknownFrame (fuel b : Nat) (body r : List Nat)
    (hb : ¬(b = 43 ∨ b = 45 ∨ b = 58 ∨ b = 36 ∨ b = 42 ∨ b = 13 ∨ b = 10))
    (hbody : ∀ x ∈ body, x ≠ 13 ∧ x ≠ 10) :
    readResponseF (fuel + 1) (b :: (body ++ 13 :: 10 :: r)) =
      .error (.unknownType [b]) := by
  have hl : readLine (b :: (body ++ 13 :: 10 :: r)) =
      (b :: (body ++ [13, 10]), r) := by
    rw [readLine_cons_ne b _ (by omega),
      readLine_append _ _ (fun x hx => (hbody x hx).2)]
  have hs : rstripCRLF (b :: (body ++ [13, 10])) = b :: body := by
    rw [rstripCRLF_cons_ne b _ (by omega), rstripCRLF_append _ hbody]
  have hne : ∀ k : Nat, k ≠ b → ¬([b] = [k]) := by
    intro k hk hh
    injection hh with h1 _
    exact hk h1.symm
  rw [readResponseF, hl]
  dsimp only
  rw [if_neg (by simp), hs, take_one_cons, drop_one_cons,
    if_neg (hne 43 (by omega)), if_neg (hne 45 (by omega)),
    if_neg (hne 58 (by omega)), if_neg (hne 36 (by omega)),
    if_neg (hne 42 (by omega))]

theorem readF_eof (fuel : Nat) :
    readResponseF (fuel + 1) [] = .error .eofError := rfl

theorem readMany_bulks (args : List Text) (fuel : Nat) (r : List Nat)
    (h : ∀ t ∈ args, validText t = true) :
    readManyF (readResponseF (fuel + 1)) args.length
      ((args.map (fun a => encodeBulk (utf8Encode a))).flatten ++ r) =
      .ok (args.map PyValue.pyStr, r) := by
  induction args generalizing r with
  | nil => simp [readManyF]
  | cons a rest ih =>
    simp only [List.map_cons, List.flatten_cons, List.length_cons,
      List.append_assoc]
    rw [readManyF]
    have hshape : encodeBulk (utf8Encode a) ++
        ((rest.map (fun a => encodeBulk (utf8Encode a))).flatten ++ r) =
        36 :: (natToDec (utf8Encode a).length ++ 13 :: 10 ::
          (utf8Encode a ++ 13 :: 10 ::
            ((rest.map (fun a => encodeBulk (utf8Encode a))).flatten ++ r))) := by
      simp [encodeBulk]
    rw [hshape, readF_bulkFrame fuel (utf8Encode a) _,
      utf8Decode_encode a (h a (by simp))]
    dsimp only
    rw [ih r (fun t ht => h t (List.mem_cons_of_mem a ht))]

theorem readF_request (fuel : Nat) (args : List Text)
    (h : ∀ t ∈ args, validText t = true) :
    readResponseF (fuel + 1 + 1) (sendCommandEncode args) =
      .ok (.pyList (args.map PyValue.pyStr), []) := by
  have hshape : sendCommandEncode args =
      42 :: (natToDec args.length ++ 13 :: 10 ::
        ((args.map (fun a => encodeBulk (utf8Encode a))).flatten)) := by
    simp [sendCommandEncode, encodeRequest, List.map_map, Function.comp_def]
  rw [hshape, readF_arrFrame (fuel + 1) args.length _]
  have hm := readMany_bulks args fuel [] h
  rw [List.append_nil] at hm
  rw [hm]

/-! ### Decoding well-formed frames -/

theorem frameDecode_aux : ∀ n : Nat,
    (∀ f : Frame, sizeOf f ≤ n → frameOK f = true → ∀ fuel r,
       frameDepth f ≤ fuel →
       readResponseF fuel (frameEncode f ++ r) = .ok (interp f, r)) ∧
    (∀ fs : List Frame, sizeOf fs ≤ n → frameOKList fs = true → ∀ fuel r,
       frameDepthList fs ≤ fuel →
       readManyF (readResponseF fuel) fs.length (frameEncodeList fs ++ r) =
         .ok (interpList fs, r)) := by
  intro n
  induction n with
  | zero =>
    constructor
    · intro f hsz
      exfalso
      cases f <;> simp_arith at hsz
    · intro fs hsz
      exfalso
      cases fs <;> simp_arith at hsz
  | succ n ih =>
    constructor
    · intro f hsz hok fuel r hdepth
      have h1 : 1 ≤ frameDepth f := by
        cases f <;> simp [frameDepth]
      obtain ⟨fu, rfl⟩ : ∃ fu, fuel = fu + 1 := ⟨fuel - 1, by omega⟩
      cases f with
      | simple t =>
        simp only [frameOK, Bool.and_eq_true] at hok
        have hbytes : ∀ b ∈ utf8Encode t, b ≠ 13 ∧ b ≠ 10 := by
          intro b hb
          have h2 := hok.2
          simp only [List.all_eq_true, Bool.and_eq_true, Bool.not_eq_true',
            beq_eq_false_iff_ne, ne_eq] at h2
          have h3 := h2 b hb
          exact ⟨h3.2, h3.1⟩
        have hshape : frameEncode (.simple t) ++ r =
            43 :: (utf8Encode t ++ 13 :: 10 :: r) := by
          simp [frameEncode]
        rw [hshape, readF_simpleFrame fu _ _ hbytes,
          utf8Decode_encode t hok.1]
        simp [interp]
      | intg m =>
        have hbytes : ∀ b ∈ intToDec m, b ≠ 13 ∧ b ≠ 10 := by
          intro b hb
          by_cases hneg : m < 0
          · simp only [intToDec, if_pos hneg, List.mem_cons] at hb
            rcases hb with hb | hb
            · omega
            · have := natToDec_digits m.natAbs b hb
              omega
          · simp only [intToDec, if_neg hneg] at hb
            have := natToDec_digits m.toNat b hb
            omega
        have hshape : frameEncode (.intg m) ++ r =
            58 :: (intToDec m ++ 13 :: 10 :: r) := by
          simp [frameEncode]
        rw [hshape, readF_intFrame fu _ _ hbytes, parseInt_intToDec]
        simp [interp]
      | bulkNil =>
        have hshape : frameEncode .bulkNil ++ r =
            36 :: 45 :: 49 :: 13 :: 10 :: r := by
          simp [frameEncode]
        rw [hshape, readF_bulkNilFrame]
        simp [interp]
      | bulk t =>
        simp only [frameOK] at hok
        have hshape : frameEncode (.bulk t) ++ r =
            36 :: (natToDec (utf8Encode t).length ++ 13 :: 10 ::
              (utf8Encode t ++ 13 :: 10 :: r)) := by
          simp [frameEncode, encodeBulk]
        rw [hshape, readF_bulkFrame fu _ _, utf8Decode_encode t hok]
        simp [interp]
      | arrNil =>
        have hshape : frameEncode .arrNil ++ r =
            42 :: 45 :: 49 :: 13 :: 10 :: r := by
          simp [frameEncode]
        rw [hshape, readF_arrNilFrame]
        simp [interp]
      | arr fs =>
        simp only [frameOK] at hok
        simp only [frameDepth] at hdepth
        have hshape : frameEncode (.arr fs) ++ r =
            42 :: (natToDec fs.length ++ 13 :: 10 ::
              (frameEncodeList fs ++ r)) := by
          simp [frameEncode]
        rw [hshape, readF_arrFrame fu fs.length _]
        have hsz' : sizeOf fs ≤ n := by
          have hspec : sizeOf (Frame.arr fs) = 1 + sizeOf fs := by
            simp_arith
          omega
        rw [ih.2 fs hsz' hok fu r (by omega)]
        simp [interp]
    · intro fs hsz hok fuel r hdepth
      cases fs with
      | nil =>
        simp [frameEncodeList, interpList, readManyF]
      | cons f ft =>
        simp only [frameOKList, Bool.and_eq_true] at hok
        simp only [frameDepthList, Nat.max_le] at hdepth
        have hspec : sizeOf (f :: ft) = 1 + sizeOf f + sizeOf ft := by
          simp_arith
        have hsz1 : sizeOf f ≤ n := by
          have hp : 1 ≤ sizeOf ft := by
            cases ft <;> simp_arith
          omega
        have hsz2 : sizeOf ft ≤ n := by
          have hp : 1 ≤ sizeOf f := by
            cases f <;> simp_arith
          omega
        simp only [frameEncodeList, List.length_cons, List.append_assoc]
        rw [readManyF,
          ih.1 f hsz1 hok.1 fuel (frameEncodeList ft ++ r) hdepth.1]
        dsimp only
        rw [ih.2 ft hsz2 hok.2 fuel r hdepth.2]
        simp [interpList]

theorem frameDepth_le_aux : ∀ n : Nat,
    (∀ f : Frame, sizeOf f ≤ n →
       frameDepth f ≤ (frameEncode f).length) ∧
    (∀ fs : List Frame, sizeOf fs ≤ n →
       frameDepthList fs ≤ (frameEncodeList fs).length) := by
  intro n
  induction n with
  | zero =>
    constructor
    · intro f hsz
      exfalso
      cases f <;> simp_arith at hsz
    · intro fs hsz
      exfalso
      cases fs <;> simp_arith at hsz
  | succ n ih =>
    constructor
    · intro f hsz
      cases f with
      | simple t => simp [frameDepth, frameEncode]
      | intg m => simp [frameDepth, frameEncode]
      | bulkNil => simp [frameDepth, frameEncode]
      | bulk t => simp [frameDepth, frameEncode, encodeBulk]
      | arrNil => simp [frameDepth, frameEncode]
      | arr fs =>
        simp only [frameDepth, frameEncode]
        have hsz' : sizeOf fs ≤ n := by
          have hspec : sizeOf (Frame.arr fs) = 1 + sizeOf fs := by
            simp_arith
          omega
        have h2 := ih.2 fs hsz'
        simp only [List.length_cons, List.length_append]
        omega
    · intro fs hsz
      cases fs with
      | nil => simp [frameDepthList, frameEncodeList]
      | cons f ft =>
        have hspec : sizeOf (f :: ft) = 1 + sizeOf f + sizeOf ft := by
          simp_arith
        have hsz1 : sizeOf f ≤ n := by
          have hp : 1 ≤ sizeOf ft := by
            cases ft <;> simp_arith
          omega
        have hsz2 : sizeOf ft ≤ n := by
          have hp : 1 ≤ sizeOf f := by
            cases f <;> simp_arith
          omega
        have h1 := ih.1 f hsz1
        have h2 := ih.2 ft hsz2
        simp only [frameDepthList, frameEncodeList, List.length_append,
          Nat.max_le]
        omega

theorem frame_decode (f : Frame) (r : List Nat) (hok : frameOK f = true) :
    readResponse (frameEncode f ++ r) = .ok (interp f, r) := by
  unfold readResponse
  apply (frameDecode_aux (sizeOf f)).1 f le_rfl hok
  have h1 := (frameDepth_le_aux (sizeOf f)).1 f le_rfl
  simp only [List.length_append]
  omega

theorem readResponses_frames (fs : List Frame) (hok : frameOKList fs = true) :
    readResponses fs.length (frameEncodeList fs) = .ok (interpList fs, []) := by
  induction fs with
  | nil => simp [readResponses, readManyF, frameEncodeList, interpList]
  | cons f ft ih =>
    simp only [frameOKList, Bool.and_eq_true] at hok
    simp only [readResponses, frameEncodeList, List.length_cons]
    rw [readManyF, frame_decode f (frameEncodeList ft) hok.1]
    dsimp only
    have h2 := ih hok.2
    simp only [readResponses] at h2
    rw [h2]
    simp [interpList]

/-! ### Keyword-mapping flattening -/

theorem flattenPairs_length (m : List (Text × Text)) :
    (flattenPairs m).length = 2 * m.length := by
  induction m with
  | nil => rfl
  | cons p rest ih =>
    obtain ⟨pk, pv⟩ := p
    simp [flattenPairs, ih]
    omega

theorem flattenPairs_get (m : List (Text × Text)) :
    ∀ (i : Nat) (k v : Text), m[i]? = some (k, v) →
      (flattenPairs m)[2 * i]? = some k ∧
      (flattenPairs m)[2 * i + 1]? = some v := by
  induction m with
  | nil =>
    intro i k v h
    simp at h
  | cons p rest ih =>
    obtain ⟨pk, pv⟩ := p
    intro i k v h
    cases i with
    | zero =>
      simp only [List.getElem?_cons_zero, Option.some.injEq,
        Prod.mk.injEq] at h
      simp [flattenPairs, h.1, h.2]
    | succ j =>
      simp only [List.getElem?_cons_succ] at h
      have hj := ih j k v h
      constructor
      · rw [show 2 * (j + 1) = 2 * j + 1 + 1 by omega]
        simp only [flattenPairs, List.getElem?_cons_succ]
        exact hj.1
      · rw [show 2 * (j + 1) + 1 = 2 * j + 1 + 1 + 1 by omega]
        simp only [flattenPairs, List.getElem?_cons_succ]
        exact hj.2

/-! ## The claims -/

/-- Claim C1: round-trip.  For every ordered sequence of (valid-Unicode)
string arguments, decoding the byte stream `send_command` emits for them
as one request yields the array of exactly those arguments, in order,
each bulk payload byte-for-byte the UTF-8 bytes of the argument, and the
whole stream is consumed. -/
theorem claim_C1_roundtrip (args : List Text)
    (h : ∀ t ∈ args, validText t = true) :
    readResponse (sendCommandEncode args) =
      .ok (.pyList (args.map PyValue.pyStr), []) := by
  unfold readResponse
  obtain ⟨m, hm⟩ : ∃ m, (sendCommandEncode args).length = m + 1 := by
    have h4 : 1 ≤ (natToDec args.length).length :=
      List.length_pos.2 (natToDec_ne_nil _)
    have h2 : 1 ≤ (sendCommandEncode args).length := by
      simp [sendCommandEncode, encodeRequest, List.length_append]
    exact ⟨(sendCommandEncode args).length - 1, by omega⟩
  rw [hm]
  exact readF_request m args h

/-- Witness for C1 at the concrete request `["GET", "€"]`. -/
theorem claim_C1_roundtrip_witness :
    (∀ t ∈ [[71, 69, 84], [8364]], validText t = true) ∧
    readResponse (sendCommandEncode [[71, 69, 84], [8364]]) =
      .ok (.pyList [.pyStr [71, 69, 84], .pyStr [8364]], []) :=
  ⟨by decide, claim_C1_roundtrip [[71, 69, 84], [8364]] (by decide)⟩

/-- Claim C2: length-prefix correctness.  The bulk header emitted by
`send_command` for an argument parses back to the byte length of the
UTF-8-encoded argument, never the character count; in particular the
one-character text `"€"` (code point 0x20AC) is framed with length 3,
not 1. -/
theorem claim_C2_length_prefix :
    (∀ a : Text,
       parseInt
           ((rstripCRLF (readLine (encodeBulk (utf8Encode a))).1).drop 1) =
         some ((utf8Encode a).length : Int)) ∧
    utf8Encode [8364] = [226, 130, 172] ∧
    (utf8Encode [8364]).length = 3 ∧
    ([8364] : Text).length = 1 := by
  refine ⟨?_, rfl, rfl, rfl⟩
  intro a
  have hd := natToDec_no_crlf (utf8Encode a).length
  have hshape : encodeBulk (utf8Encode a) =
      36 :: (natToDec (utf8Encode a).length ++ 13 :: 10 ::
        (utf8Encode a ++ [13, 10])) := by
    simp [encodeBulk]
  rw [hshape, readLine_cons_ne 36 _ (by omega),
    readLine_append _ _ (fun x hx => (hd x hx).2)]
  dsimp only
  rw [rstripCRLF_cons_ne 36 _ (by omega), rstripCRLF_append _ hd,
    drop_one_cons, parseInt_natToDec]

/-- Claim C3: sequencing.  Decoding a well-formed frame consumes exactly
its own bytes and leaves the rest of the stream (for a bulk string,
exactly the declared payload plus the 2-byte terminator), so reading `n`
responses off a concatenation of `n` well-formed frames returns them in
order. -/
theorem claim_C3_sequencing :
    (∀ (f : Frame) (r : List Nat), frameOK f = true →
       readResponse (frameEncode f ++ r) = .ok (interp f, r)) ∧
    (∀ fs : List Frame, frameOKList fs = true →
       readResponses fs.length (frameEncodeList fs) =
         .ok (interpList fs, [])) :=
  ⟨frame_decode, readResponses_frames⟩

/-- Witness for C3: two concrete frames read back in issue order. -/
theorem claim_C3_sequencing_witness :
    frameOKList [Frame.intg 7, Frame.bulk [104, 105]] = true ∧
    readResponses 2 (frameEncodeList [Frame.intg 7, Frame.bulk [104, 105]]) =
      .ok ([PyValue.pyInt 7, PyValue.pyStr [104, 105]], []) := by
  have hok : frameOKList [Frame.intg 7, Frame.bulk [104, 105]] = true := by
    simp [frameOKList, frameOK, validText, validScalar]
  refine ⟨hok, ?_⟩
  have h := claim_C3_sequencing.2 [Frame.intg 7, Frame.bulk [104, 105]] hok
  simpa [interpList, interp] using h

/-- Claim C4: error propagation.  A well-formed error frame (leading
byte `-`) makes `_read_response` raise the server-error exception
carrying the server's message text, and no value is returned. -/
theorem claim_C4_server_error (t : Text) (r : List Nat)
    (hv : validText t = true)
    (hb : ∀ x ∈ utf8Encode t, x ≠ 13 ∧ x ≠ 10) :
    readResponse (45 :: (utf8Encode t ++ 13 :: 10 :: r)) =
      .error (.serverError t) := by
  unfold readResponse
  rw [readF_errorFrame _ _ _ hb, utf8Decode_encode t hv]

/-- Witness for C4 at the frame bytes of the message "ERR wrong type". -/
theorem claim_C4_server_error_witness :
    readResponse [45, 69, 82, 82, 32, 119, 114, 111, 110, 103, 32, 116,
        121, 112, 101, 13, 10] =
      .error (.serverError
        [69, 82, 82, 32, 119, 114, 111, 110, 103, 32, 116, 121, 112, 101]) :=
  claim_C4_server_error
    [69, 82, 82, 32, 119, 114, 111, 110, 103, 32, 116, 121, 112, 101] []
    (by decide) (by decide)

/-- Claim C5: nil handling.  Decoding a nil bulk and a nil array both
yield the same absent value (`None`), while the empty array `*0` decodes
to an empty list, a value distinct from the nil sentinel. -/
theorem claim_C5_nil_handling :
    readResponse [36, 45, 49, 13, 10] = .ok (.pyNone, []) ∧
    readResponse [42, 45, 49, 13, 10] = .ok (.pyNone, []) ∧
    readResponse [42, 48, 13, 10] = .ok (.pyList [], []) ∧
    PyValue.pyList [] ≠ PyValue.pyNone :=
  ⟨rfl, rfl, rfl, fun h => PyValue.noConfusion h⟩

/-- Counterexample to C6 as stated: the well-formed non-nil bulk frame
with the single payload byte 0xFF (not valid UTF-8) makes the code raise
`UnicodeDecodeError` instead of returning the raw payload bytes. -/
theorem claim_C6_counterexample :
    readResponse [36, 49, 13, 10, 255, 13, 10] = .error .unicodeError := rfl

/-- Claim C6 as amended: for a non-nil bulk frame whose payload is valid
UTF-8, the facade returns the payload decoded as text (whose UTF-8 bytes
are exactly the payload); nil bulks return the absent value; array
frames return the recursively interpreted elements in order. -/
theorem claim_C6_amended :
    (∀ (t : Text) (r : List Nat), validText t = true →
       readResponse (encodeBulk (utf8Encode t) ++ r) = .ok (.pyStr t, r)) ∧
    (∀ r : List Nat,
       readResponse (36 :: 45 :: 49 :: 13 :: 10 :: r) = .ok (.pyNone, r)) ∧
    (∀ (fs : List Frame) (r : List Nat), frameOKList fs = true →
       readResponse (frameEncode (.arr fs) ++ r) =
         .ok (.pyList (interpList fs), r)) := by
  refine ⟨?_, ?_, ?_⟩
  · intro t r hv
    have he : frameEncode (.bulk t) = encodeBulk (utf8Encode t) := by
      simp [frameEncode]
    have hi : interp (.bulk t) = .pyStr t := by simp [interp]
    rw [← he, frame_decode (.bulk t) r (by simp [frameOK, hv]), hi]
  · intro r
    unfold readResponse
    exact readF_bulkNilFrame _ r
  · intro fs r hok
    have hi : interp (.arr fs) = .pyList (interpList fs) := by simp [interp]
    rw [frame_decode (.arr fs) r (by simp [frameOK, hok]), hi]

/-- Witness for the amended C6 at the bulk payload "h€". -/
theorem claim_C6_amended_witness :
    validText [104, 8364] = true ∧
    readResponse (encodeBulk (utf8Encode [104, 8364]) ++ []) =
      .ok (.pyStr [104, 8364], []) :=
  ⟨by decide, claim_C6_amended.1 [104, 8364] [] (by decide)⟩

/-- Claim C7: an input line with an unrecognized leading byte fails with
the unknown-type exception naming the offending byte, and that failure
is distinguishable from a server error and from end-of-stream. -/
theorem claim_C7_unknown_tag (b : Nat) (body r : List Nat)
    (hb : ¬(b = 43 ∨ b = 45 ∨ b = 58 ∨ b = 36 ∨ b = 42 ∨ b = 13 ∨ b = 10))
    (hbody : ∀ x ∈ body, x ≠ 13 ∧ x ≠ 10) :
    readResponse (b :: (body ++ 13 :: 10 :: r)) =
        .error (.unknownType [b]) ∧
      (∀ t, RErr.unknownType [b] ≠ RErr.serverError t) ∧
      RErr.unknownType [b] ≠ RErr.eofError := by
  refine ⟨?_, fun t h => RErr.noConfusion h, fun h => RErr.noConfusion h⟩
  unfold readResponse
  exact readF_unknownFrame _ b body r hb hbody

/-- Witness for C7 at the line `!\r\n`. -/
theorem claim_C7_unknown_tag_witness :
    readResponse [33, 13, 10] = .error (.unknownType [33]) :=
  (claim_C7_unknown_tag 33 [] [] (by decide) (by decide)).1

/-- Counterexample to C8 as stated: end-of-stream in the middle of a
bulk payload (`$5` followed by only two payload bytes) does not raise
the connection-closed error; the code silently returns the truncated
payload. -/
theorem claim_C8_counterexample :
    readResponse [36, 53, 13, 10, 97, 98] = .ok (.pyStr [97, 98], []) := rfl

/-- Claim C8 as amended: end-of-stream is detected (as `EOFError`,
distinct from the decode-time exceptions) exactly when it occurs before
any byte of an expected frame's header line — including between the
elements of an array — while end-of-stream inside a bulk payload goes
undetected and yields the truncated data. -/
theorem claim_C8_amended :
    (∀ fuel : Nat, readResponseF (fuel + 1) [] = .error .eofError) ∧
    readResponse [] = .error .eofError ∧
    readResponse [42, 50, 13, 10, 58, 49, 13, 10] = .error .eofError ∧
    (∀ p, RErr.eofError ≠ RErr.unknownType p) ∧
    (∀ t, RErr.eofError ≠ RErr.serverError t) ∧
    readResponse [36, 53, 13, 10, 97, 98] = .ok (.pyStr [97, 98], []) :=
  ⟨readF_eof, rfl, rfl, fun p h => RErr.noConfusion h,
    fun t h => RErr.noConfusion h, rfl⟩

/-- Claim C9: `MSet`/`HMSet` flatten their keyword mapping into
alternating key, value arguments in mapping iteration order, after the
literal command name (and, for `HMSet`, the hash key). -/
theorem claim_C9_kwargs_flatten (hk : Text) (m : List (Text × Text)) :
    (msetArgs m)[0]? = some [77, 83, 69, 84] ∧
    (msetArgs m).length = 1 + 2 * m.length ∧
    (hmsetArgs hk m)[0]? = some [72, 77, 83, 69, 84] ∧
    (hmsetArgs hk m)[1]? = some hk ∧
    (hmsetArgs hk m).length = 2 + 2 * m.length ∧
    (∀ i k v, m[i]? = some (k, v) →
      (msetArgs m)[2 * i + 1]? = some k ∧
      (msetArgs m)[2 * i + 2]? = some v ∧
      (hmsetArgs hk m)[2 * i + 2]? = some k ∧
      (hmsetArgs hk m)[2 * i + 3]? = some v) := by
  refine ⟨by simp [msetArgs], ?_, by simp [hmsetArgs], by simp [hmsetArgs],
    ?_, ?_⟩
  · simp [msetArgs, flattenPairs_length]
    omega
  · simp [hmsetArgs, flattenPairs_length]
    omega
  · intro i k v h
    have hf := flattenPairs_get m i k v h
    refine ⟨?_, ?_, ?_, ?_⟩
    · simp only [msetArgs, List.getElem?_cons_succ]
      exact hf.1
    · rw [show 2 * i + 2 = 2 * i + 1 + 1 by omega]
      simp only [msetArgs, List.getElem?_cons_succ]
      exact hf.2
    · rw [show 2 * i + 2 = 2 * i + 1 + 1 by omega]
      simp only [hmsetArgs, List.getElem?_cons_succ]
      exact hf.1
    · rw [show 2 * i + 3 = 2 * i + 1 + 1 + 1 by omega]
      simp only [hmsetArgs, List.getElem?_cons_succ]
      exact hf.2

/-- Witness for C9 at the mapping `[a ↦ b, c ↦ d]`, checking the second
pair's wire positions. -/
theorem claim_C9_kwargs_flatten_witness :
    ([([97], [98]), ([99], [100])] : List (Text × Text))[1]? =
        some ([99], [100]) ∧
    (msetArgs [([97], [98]), ([99], [100])])[3]? = some [99] ∧
    (msetArgs [([97], [98]), ([99], [100])])[4]? = some [100] ∧
    (hmsetArgs [107] [([97], [98]), ([99], [100])])[4]? = some [99] := by
  have h := (claim_C9_kwargs_flatten [107]
    [([97], [98]), ([99], [100])]).2.2.2.2.2 1 [99] [100] (by decide)
  exact ⟨by decide, h.1, h.2.1, h.2.2.1⟩

/-- Claim C10: `Connect` on an already-connected state replaces the
global client with the fresh connection and leaves every previously open
socket open; only `Close` removes the current socket, after which the
global client is absent and any command attempt fails not-connected. -/
theorem claim_C10_connect_close (w : World) :
    (Connect w).globalClient = some w.nextSock ∧
    (Connect w).openSocks = w.nextSock :: w.openSocks ∧
    (∀ s, s ∈ w.openSocks → s ∈ (Connect w).openSocks) ∧
    (∀ c w', w.globalClient = some c → Close w = .ok w' →
       w'.globalClient = none ∧
       w'.openSocks = w.openSocks.erase c ∧
       get_client w' = .error .notConnected) ∧
    (w.globalClient = none →
       Close w = .error .notConnected ∧
       get_client w = .error .notConnected) := by
  refine ⟨rfl, rfl, ?_, ?_, ?_⟩
  · intro s hs
    simp only [Connect]
    exact List.mem_cons_of_mem _ hs
  · intro c w' hg hc
    simp only [Close, hg] at hc
    injection hc with h
    subst h
    exact ⟨rfl, rfl, rfl⟩
  · intro hg
    exact ⟨by simp [Close, hg], by simp [get_client, hg]⟩

/-- Witness for C10 at a state with one open socket bound to the global
client. -/
theorem claim_C10_connect_close_witness :
    (Connect ⟨5, [3], some 3⟩).globalClient = some 5 ∧
    (3 : Nat) ∈ (Connect ⟨5, [3], some 3⟩).openSocks ∧
    get_client (⟨5, [], none⟩ : World) = .error .notConnected := by
  have h := claim_C10_connect_close ⟨5, [3], some 3⟩
  exact ⟨h.1, h.2.2.1 3 (by decide),
    (h.2.2.2.1 3 ⟨5, [], none⟩ rfl rfl).2.2⟩

